import Mathlib

/-!
Verification of the biome-config-generator program (src/main.go).

The program scans a directory tree for legacy ESLint/Prettier configuration
files, invokes an external migration tool per discovered directory, and
patches the resulting `biome.json` with two fixed options.  This development
shallowly embeds the data model and operations of `src/main.go`:

* the JSON documents handled by `patchBiomeConfig` (Go `map[string]any`
  values produced by `encoding/json`) as an inductive `JSON` type with
  association-list objects;
* the filesystem walk of `findConfigs` (with directory pruning and the two
  static filename lists) over an explicit tree type;
* the per-directory migration loop of `main` as an effect-trace semantics;
* the error paths of the walk and of the patch read-modify-write cycle.
-/

/-- JSON values as decoded by Go `encoding/json` into `any`: null, booleans,
numbers, strings, arrays and string-keyed objects.  Numeric literals are kept
uninterpreted (the program never inspects numbers).  Objects are association
lists standing for Go `map[string]any`; `setKey` below gives them map update
semantics. -/
inductive JSON where
  | null : JSON
  | boolean (b : Bool) : JSON
  | number (lit : String) : JSON
  | str (s : String) : JSON
  | arr (elems : List JSON) : JSON
  | obj (fields : List (String × JSON)) : JSON

/-- A top-level JSON object, as `json.Unmarshal(data, &config)` produces for
`var config map[string]any`. -/
abbrev JObj := List (String × JSON)

/-- Map read `m[k]` on a Go map modelled as an association list. -/
def lookupKey (o : JObj) (k : String) : Option JSON :=
  match o with
  | [] => none
  | (k', v) :: rest => if k' = k then some v else lookupKey rest k

/-- Map write `m[k] = v` on a Go map modelled as an association list:
replace the binding if the key is present, otherwise add it. -/
def setKey (o : JObj) (k : String) (v : JSON) : JObj :=
  match o with
  | [] => [(k, v)]
  | (k', v') :: rest =>
      if k' = k then (k', v) :: rest else (k', v') :: setKey rest k v

/-- The Go type assertion `x.(map[string]any)`: succeeds exactly on object
values. -/
def asObj : JSON → Option JObj
  | .obj fields => some fields
  | _ => none

/-- Fetch key `k` of `o` when it is bound to a nested object, as in
`config["formatter"].(map[string]any)`. -/
def getObjKey (o : JObj) (k : String) : Option JObj :=
  (lookupKey o k).bind asObj

/-- Fetch `o[k1][k2]`: key `k2` of the nested object at key `k1`. -/
def get2 (o : JObj) (k1 k2 : String) : Option JSON :=
  (getObjKey o k1).bind (fun inner => lookupKey inner k2)

/-- First statement of the patch body (src/main.go lines 231-237): if
`config["formatter"]` is an object, set its `formatWithErrors` key to `true`
(Go mutates the nested map in place, observably the same as re-binding it);
otherwise bind `formatter` to a fresh object holding only that key. -/
def patchFormatterStep (config : JObj) : JObj :=
  match getObjKey config "formatter" with
  | some formatter =>
      setKey config "formatter"
        (.obj (setKey formatter "formatWithErrors" (.boolean true)))
  | none =>
      setKey config "formatter" (.obj [("formatWithErrors", .boolean true)])

/-- Second statement of the patch body (src/main.go lines 239-249): if
`config["javascript"]` is an object, bind its `parser` key to a fresh object
holding only `unsafeParameterDecoratorsEnabled` (the Go code assigns a new map
literal to `js["parser"]`, replacing any previous value wholesale); otherwise
bind `javascript` to a fresh nested object. -/
def patchJavascriptStep (config : JObj) : JObj :=
  match getObjKey config "javascript" with
  | some js =>
      setKey config "javascript"
        (.obj (setKey js "parser"
          (.obj [("unsafeParameterDecoratorsEnabled", .boolean true)])))
  | none =>
      setKey config "javascript"
        (.obj [("parser",
          .obj [("unsafeParameterDecoratorsEnabled", .boolean true)])])

/-- The pure core of `patchBiomeConfig` (src/main.go lines 231-249): the two
section patches applied in program order to the decoded document. -/
def patchConfig (config : JObj) : JObj :=
  patchJavascriptStep (patchFormatterStep config)

theorem lookupKey_setKey_self (o : JObj) (k : String) (v : JSON) :
    lookupKey (setKey o k v) k = some v := by
  induction o with
  | nil => simp [setKey, lookupKey]
  | cons hd rest ih =>
      obtain ⟨k', v'⟩ := hd
      by_cases h : k' = k <;> simp [setKey, lookupKey, h, ih]

theorem lookupKey_setKey_ne (o : JObj) (k k' : String) (v : JSON)
    (h : k ≠ k') : lookupKey (setKey o k v) k' = lookupKey o k' := by
  induction o with
  | nil => simp [setKey, lookupKey, h]
  | cons hd rest ih =>
      obtain ⟨k₀, v₀⟩ := hd
      by_cases h₀ : k₀ = k
      · subst h₀
        simp [setKey, lookupKey, h]
      · by_cases h₁ : k₀ = k'
        · subst h₁
          simp [setKey, lookupKey, h₀]
        · simp [setKey, lookupKey, h₀, h₁, ih]

theorem setKey_of_lookupKey_eq (o : JObj) (k : String) (v : JSON)
    (h : lookupKey o k = some v) : setKey o k v = o := by
  induction o with
  | nil => simp [lookupKey] at h
  | cons hd rest ih =>
      obtain ⟨k₀, v₀⟩ := hd
      by_cases h₀ : k₀ = k
      · subst h₀
        simp [lookupKey] at h
        simp [setKey, h]
      · simp [lookupKey, h₀] at h
        simp [setKey, h₀, ih h]

theorem asObj_eq_some {j : JSON} {fs : JObj} (h : asObj j = some fs) :
    j = .obj fs := by
  cases j <;> simp [asObj] at h
  rw [h]

theorem lookupKey_of_getObjKey {o : JObj} {k : String} {fs : JObj}
    (h : getObjKey o k = some fs) : lookupKey o k = some (.obj fs) := by
  unfold getObjKey at h
  cases hl : lookupKey o k with
  | none => rw [hl] at h; simp at h
  | some j =>
      rw [hl] at h
      simp at h
      rw [asObj_eq_some h]

theorem getObjKey_setKey_obj (o : JObj) (k : String) (fs : JObj) :
    getObjKey (setKey o k (.obj fs)) k = some fs := by
  simp [getObjKey, lookupKey_setKey_self, asObj]

theorem getObjKey_setKey_ne (o : JObj) (k k' : String) (v : JSON)
    (h : k ≠ k') : getObjKey (setKey o k v) k' = getObjKey o k' := by
  simp [getObjKey, lookupKey_setKey_ne o k k' v h]

/-- The javascript step never touches the `formatter` key. -/
theorem getObjKey_patchJavascriptStep_formatter (c : JObj) :
    getObjKey (patchJavascriptStep c) "formatter" = getObjKey c "formatter" := by
  unfold patchJavascriptStep
  cases getObjKey c "javascript" <;>
    exact getObjKey_setKey_ne _ _ _ _ (by decide)

/-- The formatter step never touches the `javascript` key. -/
theorem getObjKey_patchFormatterStep_javascript (c : JObj) :
    getObjKey (patchFormatterStep c) "javascript" = getObjKey c "javascript" := by
  unfold patchFormatterStep
  cases getObjKey c "formatter" <;>
    exact getObjKey_setKey_ne _ _ _ _ (by decide)

/-- After a patch, the document has a `formatter` object section whose
`formatWithErrors` key is `true`. -/
theorem formatter_after_patch (c : JObj) :
    ∃ fm, getObjKey (patchConfig c) "formatter" = some fm ∧
      lookupKey fm "formatWithErrors" = some (.boolean true) := by
  unfold patchConfig
  rw [getObjKey_patchJavascriptStep_formatter]
  unfold patchFormatterStep
  cases hf : getObjKey c "formatter" with
  | some fm =>
      refine ⟨setKey fm "formatWithErrors" (.boolean true), ?_, ?_⟩
      · exact getObjKey_setKey_obj _ _ _
      · exact lookupKey_setKey_self _ _ _
  | none =>
      refine ⟨[("formatWithErrors", .boolean true)], ?_, rfl⟩
      exact getObjKey_setKey_obj _ _ _

/-- After a patch, the document has a `javascript` object section whose
`parser` key is exactly the fresh decorator-enabling object. -/
theorem javascript_after_patch (c : JObj) :
    ∃ js, getObjKey (patchConfig c) "javascript" = some js ∧
      lookupKey js "parser"
        = some (.obj [("unsafeParameterDecoratorsEnabled", .boolean true)]) := by
  unfold patchConfig patchJavascriptStep
  cases hj : getObjKey (patchFormatterStep c) "javascript" with
  | some js =>
      refine ⟨setKey js "parser"
        (.obj [("unsafeParameterDecoratorsEnabled", .boolean true)]), ?_, ?_⟩
      · exact getObjKey_setKey_obj _ _ _
      · exact lookupKey_setKey_self _ _ _
  | none =>
      refine ⟨[("parser",
        .obj [("unsafeParameterDecoratorsEnabled", .boolean true)])], ?_, rfl⟩
      exact getObjKey_setKey_obj _ _ _

/-- C2: patching ensures `formatter.formatWithErrors = true`; when `formatter`
was already an object only that key is set and every other key is unchanged;
when it was absent or not an object it becomes a fresh object holding only
`formatWithErrors = true`. -/
theorem C2_formatter_patch (config : JObj) :
    get2 (patchConfig config) "formatter" "formatWithErrors"
        = some (.boolean true) ∧
    (∀ fm k, getObjKey config "formatter" = some fm → k ≠ "formatWithErrors" →
      get2 (patchConfig config) "formatter" k = lookupKey fm k) ∧
    (getObjKey config "formatter" = none →
      getObjKey (patchConfig config) "formatter"
        = some [("formatWithErrors", .boolean true)]) := by
  have hthru : getObjKey (patchConfig config) "formatter"
      = getObjKey (patchFormatterStep config) "formatter" := by
    unfold patchConfig
    exact getObjKey_patchJavascriptStep_formatter _
  refine ⟨?_, ?_, ?_⟩
  · unfold get2
    rw [hthru]
    unfold patchFormatterStep
    cases hf : getObjKey config "formatter" with
    | some fm =>
        rw [getObjKey_setKey_obj]
        simp [lookupKey_setKey_self]
    | none =>
        rw [getObjKey_setKey_obj]
        rfl
  · intro fm k hf hk
    unfold get2
    rw [hthru]
    unfold patchFormatterStep
    rw [hf, getObjKey_setKey_obj]
    simp [lookupKey_setKey_ne _ _ _ _ (Ne.symm hk)]
  · intro hf
    rw [hthru]
    unfold patchFormatterStep
    rw [hf]
    exact getObjKey_setKey_obj _ _ _

/-- C2 witness: on `{"formatter": {"indentStyle": "tab"}}` the pre-existing
`indentStyle` key survives patching; on a document without a `formatter`
object section, patching installs the fresh singleton section. -/
theorem C2_formatter_patch_witness :
    get2 (patchConfig [("formatter", JSON.obj [("indentStyle", JSON.str "tab")])])
        "formatter" "indentStyle" = some (JSON.str "tab") ∧
    getObjKey (patchConfig [("linter", JSON.obj [])]) "formatter"
      = some [("formatWithErrors", JSON.boolean true)] := by
  constructor
  · have h := (C2_formatter_patch
        [("formatter", JSON.obj [("indentStyle", JSON.str "tab")])]).2.1
        [("indentStyle", JSON.str "tab")] "indentStyle" rfl (by decide)
    rw [h]
    rfl
  · exact (C2_formatter_patch [("linter", JSON.obj [])]).2.2 rfl

/-- C1 counterexample: on `{"javascript":{"parser":{"jsxEverywhere":true}}}`
the patch does not preserve the pre-existing key `jsxEverywhere` under
`javascript.parser`: the whole `parser` object is replaced by the fresh
singleton, so the key is gone afterwards. -/
theorem C1_counterexample :
    get2 [("javascript", JSON.obj [("parser",
          JSON.obj [("jsxEverywhere", JSON.boolean true)])])]
        "javascript" "parser"
      = some (.obj [("jsxEverywhere", JSON.boolean true)]) ∧
    ((get2 (patchConfig [("javascript", JSON.obj [("parser",
          JSON.obj [("jsxEverywhere", JSON.boolean true)])])])
        "javascript" "parser").bind asObj).bind
      (fun inner => lookupKey inner "jsxEverywhere") = none := by
  exact ⟨rfl, rfl⟩

/-- C1 (amended): patching sets `javascript.parser` to the fresh object
holding only `unsafeParameterDecoratorsEnabled = true`, discarding any
pre-existing keys under `javascript.parser`; keys of the `javascript` section
other than `parser` are preserved when `javascript` was already an object. -/
theorem C1_parser_replaced (config : JObj) :
    get2 (patchConfig config) "javascript" "parser"
      = some (.obj [("unsafeParameterDecoratorsEnabled", .boolean true)]) ∧
    (∀ js k, getObjKey config "javascript" = some js → k ≠ "parser" →
      get2 (patchConfig config) "javascript" k = lookupKey js k) := by
  constructor
  · obtain ⟨js, hjs, hp⟩ := javascript_after_patch config
    unfold get2
    rw [hjs]
    exact hp
  · intro js k hjs hk
    unfold get2 patchConfig patchJavascriptStep
    rw [getObjKey_patchFormatterStep_javascript, hjs, getObjKey_setKey_obj]
    simp [lookupKey_setKey_ne _ _ _ _ (Ne.symm hk)]

/-- C1 amended-claim witness: with `javascript` holding both a sibling key
`jsxRuntime` and a `parser` object, patching keeps the sibling and installs
the fresh `parser` singleton. -/
theorem C1_parser_replaced_witness :
    get2 (patchConfig [("javascript", JSON.obj
        [("jsxRuntime", JSON.str "transparent"),
         ("parser", JSON.obj [("old", JSON.boolean true)])])])
      "javascript" "jsxRuntime" = some (JSON.str "transparent") := by
  have h := (C1_parser_replaced [("javascript", JSON.obj
      [("jsxRuntime", JSON.str "transparent"),
       ("parser", JSON.obj [("old", JSON.boolean true)])])]).2
    [("jsxRuntime", JSON.str "transparent"),
     ("parser", JSON.obj [("old", JSON.boolean true)])]
    "jsxRuntime" rfl (by decide)
  rw [h]
  rfl

/-- C3: the patch is idempotent on decoded documents: applying it twice
yields exactly the document obtained by applying it once (the two injected
keys are set in place, never appended a second time). -/
theorem C3_patch_idempotent (c : JObj) :
    patchConfig (patchConfig c) = patchConfig c := by
  obtain ⟨fm, hfm, hfwe⟩ := formatter_after_patch c
  obtain ⟨js, hjs, hp⟩ := javascript_after_patch c
  have h1 : patchFormatterStep (patchConfig c) = patchConfig c := by
    unfold patchFormatterStep
    rw [hfm]
    dsimp only
    rw [setKey_of_lookupKey_eq _ _ _ hfwe]
    exact setKey_of_lookupKey_eq _ _ _ (lookupKey_of_getObjKey hfm)
  show patchJavascriptStep (patchFormatterStep (patchConfig c)) = patchConfig c
  rw [h1]
  unfold patchJavascriptStep
  rw [hjs]
  dsimp only
  rw [setKey_of_lookupKey_eq _ _ _ hp]
  exact setKey_of_lookupKey_eq _ _ _ (lookupKey_of_getObjKey hjs)

/-- The static ESLint config filename list (src/main.go lines 14-24). -/
def eslintConfigFiles : List String :=
  [".eslintrc.json", ".eslintrc.js", ".eslintrc.cjs", ".eslintrc.yaml",
   ".eslintrc.yml", ".eslintrc", "eslint.config.js", "eslint.config.mjs",
   "eslint.config.cjs"]

/-- The static Prettier config filename list (src/main.go lines 26-39). -/
def prettierConfigFiles : List String :=
  [".prettierrc", ".prettierrc.json", ".prettierrc.yml", ".prettierrc.yaml",
   ".prettierrc.json5", ".prettierrc.js", ".prettierrc.cjs", ".prettierrc.mjs",
   ".prettierrc.toml", "prettier.config.js", "prettier.config.cjs",
   "prettier.config.mjs"]

/-- The directory-name denylist of `findConfigs` (src/main.go line 173). -/
def prunedDirs : List String :=
  ["node_modules", ".git", "dist", "build", ".devops"]

/-- The record built per discovered directory (src/main.go lines 51-55).
Paths are lists of components from the scan root. -/
structure configLocation where
  dir : List String
  hasEslint : Bool
  hasPrettier : Bool
deriving DecidableEq

instance : Inhabited configLocation := ⟨⟨[], false, false⟩⟩

/-- The scan result `map[string]*configLocation`, as an association list
keyed by directory path. -/
abbrev ScanResult := List (List String × configLocation)

/-- Map read on the scan result. -/
def lookupDir (locs : ScanResult) (d : List String) : Option configLocation :=
  match locs with
  | [] => none
  | (d', loc) :: rest => if d' = d then some loc else lookupDir rest d

/-- The eslint half of the per-file body (src/main.go lines 182-187): create
the record for `d` if absent (flags start out false), then set `hasEslint`. -/
def setHasEslint (locs : ScanResult) (d : List String) : ScanResult :=
  match locs with
  | [] => [(d, ⟨d, true, false⟩)]
  | (d', loc) :: rest =>
      if d' = d then (d', { loc with hasEslint := true }) :: rest
      else (d', loc) :: setHasEslint rest d

/-- The prettier half of the per-file body (src/main.go lines 189-194). -/
def setHasPrettier (locs : ScanResult) (d : List String) : ScanResult :=
  match locs with
  | [] => [(d, ⟨d, false, true⟩)]
  | (d', loc) :: rest =>
      if d' = d then (d', { loc with hasPrettier := true }) :: rest
      else (d', loc) :: setHasPrettier rest d

/-- The walk callback's non-directory branch (src/main.go lines 179-196):
membership of the exact base name in each static list drives the two flag
updates. -/
def classifyFile (locs : ScanResult) (d : List String) (fileName : String) :
    ScanResult :=
  let locs :=
    if fileName ∈ eslintConfigFiles then setHasEslint locs d else locs
  if fileName ∈ prettierConfigFiles then setHasPrettier locs d else locs

mutual
/-- A filesystem entry: a regular file or a directory with children. -/
inductive FSTree where
  | file (name : String) : FSTree
  | dir (name : String) (children : FSForest) : FSTree
/-- The children of a directory. -/
inductive FSForest where
  | nil : FSForest
  | cons (t : FSTree) (ts : FSForest) : FSForest
end

mutual
/-- The `filepath.Walk` traversal of `findConfigs` (src/main.go lines
163-197): a directory whose name is on the denylist is skipped whole
(`filepath.SkipDir`, src/main.go lines 171-177); other directories are
descended into; files are classified into the accumulating result.
`parent` is the path of the entry's containing directory. -/
def walkEntry (parent : List String) : FSTree → ScanResult → ScanResult
  | .file name, locs => classifyFile locs parent name
  | .dir name children, locs =>
      if name ∈ prunedDirs then locs
      else walkForest (parent ++ [name]) children locs
/-- Walk the entries of one directory in order. -/
def walkForest (parent : List String) : FSForest → ScanResult → ScanResult
  | .nil, locs => locs
  | .cons t ts, locs => walkForest parent ts (walkEntry parent t locs)
end

/-- `findConfigs` (src/main.go lines 160-200) on an error-free tree: walk
from the root with an empty result map. -/
def findConfigs (root : FSTree) : ScanResult :=
  walkEntry [] root []

mutual
/-- The (directory, filename) pairs the walk visits, in visit order: the
same traversal as `walkEntry`, recording classification events instead of
performing them. -/
def filesOf (parent : List String) : FSTree → List (List String × String)
  | .file name => [(parent, name)]
  | .dir name children =>
      if name ∈ prunedDirs then []
      else forestFiles (parent ++ [name]) children
/-- Visited (directory, filename) pairs of a directory's entries. -/
def forestFiles (parent : List String) : FSForest → List (List String × String)
  | .nil => []
  | .cons t ts => filesOf parent t ++ forestFiles parent ts
end

mutual
theorem walkEntry_eq_foldl (parent : List String) (t : FSTree)
    (locs : ScanResult) :
    walkEntry parent t locs
      = (filesOf parent t).foldl (fun l e => classifyFile l e.1 e.2) locs := by
  cases t with
  | file name => rfl
  | dir name children =>
      by_cases h : name ∈ prunedDirs
      · simp [walkEntry, filesOf, h]
      · rw [walkEntry, filesOf]
        simp only [h, if_neg, ite_false]
        exact walkForest_eq_foldl (parent ++ [name]) children locs
theorem walkForest_eq_foldl (parent : List String) (ts : FSForest)
    (locs : ScanResult) :
    walkForest parent ts locs
      = (forestFiles parent ts).foldl (fun l e => classifyFile l e.1 e.2) locs := by
  cases ts with
  | nil => rfl
  | cons t ts' =>
      rw [walkForest, forestFiles, List.foldl_append,
        ← walkEntry_eq_foldl parent t locs]
      exact walkForest_eq_foldl parent ts' (walkEntry parent t locs)
end

/-- Whether the visited events contain an ESLint-config filename in
directory `d`. -/
def dirEslint (events : List (List String × String)) (d : List String) : Bool :=
  events.any (fun e => decide (e.1 = d) && decide (e.2 ∈ eslintConfigFiles))

/-- Whether the visited events contain a Prettier-config filename in
directory `d`. -/
def dirPrettier (events : List (List String × String)) (d : List String) : Bool :=
  events.any (fun e => decide (e.1 = d) && decide (e.2 ∈ prettierConfigFiles))

/-- Combine a directory's previous record with one more batch of matches:
flags only ever get set, and a record is created only when a flag matched. -/
def mergeFlags (prev : Option configLocation) (d : List String) (e p : Bool) :
    Option configLocation :=
  match prev with
  | some loc =>
      some { loc with hasEslint := loc.hasEslint || e,
                      hasPrettier := loc.hasPrettier || p }
  | none => if e || p then some ⟨d, e, p⟩ else none

theorem mergeFlags_false (prev : Option configLocation) (d : List String) :
    mergeFlags prev d false false = prev := by
  cases prev with
  | none => rfl
  | some loc => cases loc; simp [mergeFlags]

theorem mergeFlags_mergeFlags (prev : Option configLocation) (d : List String)
    (e p e' p' : Bool) :
    mergeFlags (mergeFlags prev d e p) d e' p'
      = mergeFlags prev d (e || e') (p || p') := by
  cases prev with
  | some loc => cases loc; simp [mergeFlags, Bool.or_assoc]
  | none =>
      by_cases h : (e || p) = true
      · rw [mergeFlags]
        simp only [h, if_true]
        rw [mergeFlags, mergeFlags]
        have : (e || e' || (p || p')) = true := by
          rcases Bool.or_eq_true_iff.mp h with he | hp
          · simp [he]
          · simp [hp]
        simp [this]
      · have he : e = false := by revert h; cases e <;> cases p <;> simp
        have hp : p = false := by revert h; cases e <;> cases p <;> simp
        subst he; subst hp
        rw [mergeFlags_false]
        simp [mergeFlags]

theorem lookupDir_setHasEslint_self (locs : ScanResult) (d : List String) :
    lookupDir (setHasEslint locs d) d
      = some (match lookupDir locs d with
          | some loc => { loc with hasEslint := true }
          | none => ⟨d, true, false⟩) := by
  induction locs with
  | nil => simp [setHasEslint, lookupDir]
  | cons hd rest ih =>
      obtain ⟨d', loc⟩ := hd
      by_cases h : d' = d <;> simp [setHasEslint, lookupDir, h, ih]

theorem lookupDir_setHasPrettier_self (locs : ScanResult) (d : List String) :
    lookupDir (setHasPrettier locs d) d
      = some (match lookupDir locs d with
          | some loc => { loc with hasPrettier := true }
          | none => ⟨d, false, true⟩) := by
  induction locs with
  | nil => simp [setHasPrettier, lookupDir]
  | cons hd rest ih =>
      obtain ⟨d', loc⟩ := hd
      by_cases h : d' = d <;> simp [setHasPrettier, lookupDir, h, ih]

theorem lookupDir_setHasEslint_ne (locs : ScanResult) (d d' : List String)
    (h : d ≠ d') : lookupDir (setHasEslint locs d) d' = lookupDir locs d' := by
  induction locs with
  | nil => simp [setHasEslint, lookupDir, h]
  | cons hd rest ih =>
      obtain ⟨d₀, loc⟩ := hd
      by_cases h₀ : d₀ = d
      · subst h₀
        simp [setHasEslint, lookupDir, h]
      · by_cases h₁ : d₀ = d'
        · subst h₁
          simp [setHasEslint, lookupDir, h₀]
        · simp [setHasEslint, lookupDir, h₀, h₁, ih]

theorem lookupDir_setHasPrettier_ne (locs : ScanResult) (d d' : List String)
    (h : d ≠ d') : lookupDir (setHasPrettier locs d) d' = lookupDir locs d' := by
  induction locs with
  | nil => simp [setHasPrettier, lookupDir, h]
  | cons hd rest ih =>
      obtain ⟨d₀, loc⟩ := hd
      by_cases h₀ : d₀ = d
      · subst h₀
        simp [setHasPrettier, lookupDir, h]
      · by_cases h₁ : d₀ = d'
        · subst h₁
          simp [setHasPrettier, lookupDir, h₀]
        · simp [setHasPrettier, lookupDir, h₀, h₁, ih]

theorem lookupDir_classifyFile_self (locs : ScanResult) (d : List String)
    (f : String) :
    lookupDir (classifyFile locs d f) d
      = mergeFlags (lookupDir locs d) d
          (decide (f ∈ eslintConfigFiles)) (decide (f ∈ prettierConfigFiles)) := by
  unfold classifyFile
  by_cases hE : f ∈ eslintConfigFiles <;> by_cases hP : f ∈ prettierConfigFiles <;>
    simp only [hE, hP, if_true, if_false, decide_eq_true_eq, ite_true, ite_false,
      decide_True, decide_False] <;>
    [skip; skip; skip; skip] <;>
    first
      | (rw [lookupDir_setHasPrettier_self, lookupDir_setHasEslint_self]
         cases hprev : lookupDir locs d with
         | some loc => cases loc; simp [mergeFlags]
         | none => simp [mergeFlags])
      | (rw [lookupDir_setHasEslint_self]
         cases hprev : lookupDir locs d with
         | some loc => cases loc; simp [mergeFlags]
         | none => simp [mergeFlags])
      | (rw [lookupDir_setHasPrettier_self]
         cases hprev : lookupDir locs d with
         | some loc => cases loc; simp [mergeFlags]
         | none => simp [mergeFlags])
      | (cases hprev : lookupDir locs d with
         | some loc => cases loc; simp [mergeFlags]
         | none => simp [mergeFlags])

theorem lookupDir_classifyFile_ne (locs : ScanResult) (d d' : List String)
    (f : String) (h : d ≠ d') :
    lookupDir (classifyFile locs d f) d' = lookupDir locs d' := by
  unfold classifyFile
  by_cases hE : f ∈ eslintConfigFiles <;> by_cases hP : f ∈ prettierConfigFiles <;>
    simp [hE, hP, lookupDir_setHasEslint_ne _ _ _ h,
      lookupDir_setHasPrettier_ne _ _ _ h]

/-- Characterization of the scan fold: the record for `d` after processing a
batch of (directory, filename) events merges the exact-name matches for `d`
into whatever record existed before. -/
theorem lookupDir_foldl_classify (events : List (List String × String))
    (locs : ScanResult) (d : List String) :
    lookupDir (events.foldl (fun l e => classifyFile l e.1 e.2) locs) d
      = mergeFlags (lookupDir locs d) d (dirEslint events d)
          (dirPrettier events d) := by
  induction events generalizing locs with
  | nil => simp [dirEslint, dirPrettier, mergeFlags_false]
  | cons e tl ih =>
      obtain ⟨ed, ef⟩ := e
      rw [List.foldl_cons, ih]
      by_cases h : ed = d
      · subst h
        rw [lookupDir_classifyFile_self, mergeFlags_mergeFlags]
        have hE : dirEslint ((ed, ef) :: tl) ed
            = (decide (ef ∈ eslintConfigFiles) || dirEslint tl ed) := by
          simp [dirEslint]
        have hP : dirPrettier ((ed, ef) :: tl) ed
            = (decide (ef ∈ prettierConfigFiles) || dirPrettier tl ed) := by
          simp [dirPrettier]
        rw [hE, hP]
      · rw [lookupDir_classifyFile_ne _ _ _ _ h]
        have hE : dirEslint ((ed, ef) :: tl) d = dirEslint tl d := by
          simp [dirEslint, h]
        have hP : dirPrettier ((ed, ef) :: tl) d = dirPrettier tl d := by
          simp [dirPrettier, h]
        rw [hE, hP]

/-- The record `findConfigs` produces for directory `d`, in terms of the
visited files: present exactly when some visited file in `d` matches one of
the static lists, with each flag reporting matches for its family. -/
theorem lookupDir_findConfigs (t : FSTree) (d : List String) :
    lookupDir (findConfigs t) d
      = (if dirEslint (filesOf [] t) d || dirPrettier (filesOf [] t) d then
          some ⟨d, dirEslint (filesOf [] t) d, dirPrettier (filesOf [] t) d⟩
        else none) := by
  unfold findConfigs
  rw [walkEntry_eq_foldl, lookupDir_foldl_classify]
  rfl

/-- The key list of a scan result. -/
def keysOf (locs : ScanResult) : List (List String) := locs.map Prod.fst

theorem keysOf_setHasEslint (locs : ScanResult) (d : List String) :
    ∀ k ∈ keysOf (setHasEslint locs d), k = d ∨ k ∈ keysOf locs := by
  induction locs with
  | nil => simp [setHasEslint, keysOf]
  | cons hd rest ih =>
      obtain ⟨d', loc⟩ := hd
      by_cases h : d' = d
      · simp [setHasEslint, keysOf, h]
      · intro k hk
        simp only [setHasEslint, keysOf, h, if_false, ite_false,
          List.map_cons, List.mem_cons] at hk
        rcases hk with hk | hk
        · right; simp [keysOf, hk]
        · rcases ih k hk with hk' | hk'
          · left; exact hk'
          · right; simp [keysOf] at hk' ⊢; right; exact hk'

theorem keysOf_setHasPrettier (locs : ScanResult) (d : List String) :
    ∀ k ∈ keysOf (setHasPrettier locs d), k = d ∨ k ∈ keysOf locs := by
  induction locs with
  | nil => simp [setHasPrettier, keysOf]
  | cons hd rest ih =>
      obtain ⟨d', loc⟩ := hd
      by_cases h : d' = d
      · simp [setHasPrettier, keysOf, h]
      · intro k hk
        simp only [setHasPrettier, keysOf, h, if_false, ite_false,
          List.map_cons, List.mem_cons] at hk
        rcases hk with hk | hk
        · right; simp [keysOf, hk]
        · rcases ih k hk with hk' | hk'
          · left; exact hk'
          · right; simp [keysOf] at hk' ⊢; right; exact hk'

theorem keysOf_classifyFile (locs : ScanResult) (d : List String) (f : String) :
    ∀ k ∈ keysOf (classifyFile locs d f), k = d ∨ k ∈ keysOf locs := by
  unfold classifyFile
  by_cases hE : f ∈ eslintConfigFiles <;> by_cases hP : f ∈ prettierConfigFiles <;>
    simp only [hE, hP, ite_true, ite_false] <;> intro k hk
  · rcases keysOf_setHasPrettier _ _ k hk with h | h
    · exact Or.inl h
    · exact keysOf_setHasEslint _ _ k h
  · exact keysOf_setHasEslint _ _ k hk
  · exact keysOf_setHasPrettier _ _ k hk
  · exact Or.inr hk

theorem keysOf_foldl_classify (events : List (List String × String))
    (locs : ScanResult) :
    ∀ k ∈ keysOf (events.foldl (fun l e => classifyFile l e.1 e.2) locs),
      (∃ e ∈ events, e.1 = k) ∨ k ∈ keysOf locs := by
  induction events generalizing locs with
  | nil => intro k hk; exact Or.inr hk
  | cons e tl ih =>
      intro k hk
      rw [List.foldl_cons] at hk
      rcases ih (classifyFile locs e.1 e.2) k hk with h | h
      · obtain ⟨e', he', hk'⟩ := h
        exact Or.inl ⟨e', List.mem_cons_of_mem _ he', hk'⟩
      · rcases keysOf_classifyFile _ _ _ k h with h' | h'
        · exact Or.inl ⟨e, List.mem_cons_self _ _, h'.symm⟩
        · exact Or.inr h'

mutual
/-- Every visited (directory, filename) event lies in a directory whose path
components all survived the prune check, provided the starting path does. -/
theorem filesOf_no_pruned (parent : List String) (t : FSTree)
    (hp : ∀ c ∈ parent, c ∉ prunedDirs) :
    ∀ e ∈ filesOf parent t, ∀ c ∈ e.1, c ∉ prunedDirs := by
  cases t with
  | file name =>
      intro e he
      simp only [filesOf, List.mem_singleton] at he
      subst he
      exact hp
  | dir name children =>
      by_cases h : name ∈ prunedDirs
      · intro e he
        simp [filesOf, h] at he
      · intro e he
        simp only [filesOf, h, ite_false, if_false] at he
        refine forestFiles_no_pruned (parent ++ [name]) children ?_ e he
        intro c hc
        rcases List.mem_append.mp hc with hc | hc
        · exact hp c hc
        · rw [List.mem_singleton] at hc
          subst hc
          exact h
theorem forestFiles_no_pruned (parent : List String) (ts : FSForest)
    (hp : ∀ c ∈ parent, c ∉ prunedDirs) :
    ∀ e ∈ forestFiles parent ts, ∀ c ∈ e.1, c ∉ prunedDirs := by
  cases ts with
  | nil => intro e he; simp [forestFiles] at he
  | cons t ts' =>
      intro e he
      rcases List.mem_append.mp he with he | he
      · exact filesOf_no_pruned parent t hp e he
      · exact forestFiles_no_pruned parent ts' hp e he
end

/-- C4: directories on the denylist are invisible to the scan: no key of the
scan result has a denylisted component (in particular no key IS a denylisted
directory), and the walk of a denylisted directory returns the accumulated
result untouched, whatever the directory contains. -/
theorem C4_pruned_invisible (t : FSTree) :
    (∀ d ∈ keysOf (findConfigs t), ∀ comp ∈ d, comp ∉ prunedDirs) ∧
    (∀ parent name children locs, name ∈ prunedDirs →
      walkEntry parent (.dir name children) locs = locs) := by
  constructor
  · intro d hd comp hc
    unfold findConfigs at hd
    rw [walkEntry_eq_foldl] at hd
    rcases keysOf_foldl_classify _ _ d hd with h | h
    · obtain ⟨e, he, hed⟩ := h
      subst hed
      exact filesOf_no_pruned [] t (by simp) e he comp hc
    · simp [keysOf] at h
  · intro parent name children locs h
    simp [walkEntry, h]

/-- C4 witness: on a tree with a matching file under `root/a` and another
under `root/node_modules`, the key component `a` is certified non-pruned by
the theorem, and walking a `node_modules` directory with a matching file
leaves the result empty. -/
theorem C4_pruned_invisible_witness :
    "a" ∉ prunedDirs ∧
    walkEntry [] (.dir "node_modules" (.cons (.file ".eslintrc.json") .nil))
      [] = [] := by
  constructor
  · exact (C4_pruned_invisible
      (.dir "root"
        (.cons (.dir "a" (.cons (.file ".eslintrc.json") .nil))
         (.cons (.dir "node_modules" (.cons (.file ".eslintrc.json") .nil))
          .nil)))).1
      ["root", "a"] (by decide) "a" (by decide)
  · exact (C4_pruned_invisible (.file "x")).2
      [] "node_modules" (.cons (.file ".eslintrc.json") .nil) [] (by decide)

/-- C5: classification is by exact base-name membership in the static lists:
a visited directory with an `.eslintrc.json` and no prettier-named file gets
the record `linter=true, formatter=false`; one with both `.prettierrc` and
`eslint.config.js` gets the single record with both flags true. -/
theorem C5_classification (t : FSTree) (d : List String) :
    ((d, ".eslintrc.json") ∈ filesOf [] t →
     (∀ f, (d, f) ∈ filesOf [] t → f ∉ prettierConfigFiles) →
     lookupDir (findConfigs t) d = some ⟨d, true, false⟩) ∧
    ((d, ".prettierrc") ∈ filesOf [] t →
     (d, "eslint.config.js") ∈ filesOf [] t →
     lookupDir (findConfigs t) d = some ⟨d, true, true⟩) := by
  constructor
  · intro hE hNoP
    have he : dirEslint (filesOf [] t) d = true := by
      rw [dirEslint, List.any_eq_true]
      refine ⟨(d, ".eslintrc.json"), hE, ?_⟩
      have h1 : decide (d = d) = true := by simp
      have h2 : decide (".eslintrc.json" ∈ eslintConfigFiles) = true := by
        decide
      rw [h1, h2]
      rfl
    have hp : dirPrettier (filesOf [] t) d = false := by
      cases hval : dirPrettier (filesOf [] t) d with
      | false => rfl
      | true =>
          exfalso
          rw [dirPrettier, List.any_eq_true] at hval
          obtain ⟨e, hmem, hpred⟩ := hval
          obtain ⟨ed, ef⟩ := e
          rw [Bool.and_eq_true, decide_eq_true_eq, decide_eq_true_eq] at hpred
          obtain ⟨h1, h2⟩ := hpred
          subst h1
          exact hNoP ef hmem h2
    rw [lookupDir_findConfigs, he, hp]
    rfl
  · intro hP hE
    have he : dirEslint (filesOf [] t) d = true := by
      rw [dirEslint, List.any_eq_true]
      refine ⟨(d, "eslint.config.js"), hE, ?_⟩
      have h1 : decide (d = d) = true := by simp
      have h2 : decide ("eslint.config.js" ∈ eslintConfigFiles) = true := by
        decide
      rw [h1, h2]
      rfl
    have hp : dirPrettier (filesOf [] t) d = true := by
      rw [dirPrettier, List.any_eq_true]
      refine ⟨(d, ".prettierrc"), hP, ?_⟩
      have h1 : decide (d = d) = true := by simp
      have h2 : decide (".prettierrc" ∈ prettierConfigFiles) = true := by
        decide
      rw [h1, h2]
      rfl
    rw [lookupDir_findConfigs, he, hp]
    rfl

/-- C5 witness: a root holding only `.eslintrc.json` yields linter-only, a
root holding `.prettierrc` and `eslint.config.js` yields both flags. -/
theorem C5_classification_witness :
    lookupDir (findConfigs (.dir "r" (.cons (.file ".eslintrc.json") .nil)))
        ["r"] = some ⟨["r"], true, false⟩ ∧
    lookupDir (findConfigs (.dir "r2" (.cons (.file ".prettierrc")
        (.cons (.file "eslint.config.js") .nil)))) ["r2"]
      = some ⟨["r2"], true, true⟩ := by
  constructor
  · refine (C5_classification _ ["r"]).1 (by decide) ?_
    intro f hf
    have hsing : filesOf [] (.dir "r" (.cons (.file ".eslintrc.json") .nil))
        = [(["r"], ".eslintrc.json")] := rfl
    rw [hsing, List.mem_singleton] at hf
    have hfe : f = ".eslintrc.json" := congrArg Prod.snd hf
    subst hfe
    decide
  · exact (C5_classification _ ["r2"]).2 (by decide) (by decide)

/-- The minimal default biome.json skeleton (src/main.go lines 41-49). -/
def minimalBiomeConfig : String :=
  "\x7b\n  \"linter\": \x7b\n    \"enabled\": true,\n    \"rules\": \x7b\n      \"recommended\": true\n    \x7d\n  \x7d\n\x7d\n"

/-- Command line of `migrateEslintConfig` (src/main.go line 203). -/
def migrateEslintArgs : List String :=
  ["npx", "@biomejs/biome", "migrate", "eslint", "--write"]

/-- Command line of `migratePrettierConfig` (src/main.go line 212). -/
def migratePrettierArgs : List String :=
  ["npx", "@biomejs/biome", "migrate", "prettier", "--write"]

/-- Observable actions of the migration loop: filesystem writes
(`os.WriteFile`, `os.Remove`, the patch rewrite) and subprocess launches
(`exec.Command(...).Run()`) are distinguished from mere report lines on
standard output.  Print payloads keep the message text with the formatted
arguments elided. -/
inductive Effect where
  | createFile (path : List String) (content : String) : Effect
  | removeFile (path : List String) : Effect
  | runMigration (dir : List String) (args : List String) : Effect
  | patchFile (path : List String) : Effect
  | printLine (line : String) : Effect
deriving DecidableEq

/-- Whether an effect is a mere report line. -/
def isReport : Effect → Bool
  | .printLine _ => true
  | _ => false

/-- Environment facts the loop body observes for one directory: whether
`biome.json` already exists (`os.Stat`), and whether each fallible call
(`os.WriteFile`, the two migrations, the patch) succeeds. -/
structure DirEnv where
  biomeExists : Bool
  createOk : Bool
  eslintMigrateOk : Bool
  prettierMigrateOk : Bool
  patchOk : Bool
deriving DecidableEq

/-- The per-directory loop body of `main` (src/main.go lines 96-153) as the
trace of effects it performs, given the directory's record and environment.
The early `continue`s (dry run, failed creation, the defensive delete branch)
cut the trace short exactly as in the source. -/
def processDir (dryRun : Bool) (loc : configLocation) (env : DirEnv) :
    List Effect :=
  if dryRun then
    Effect.printLine "[DRY RUN] Would migrate in" ::
      ((if loc.hasEslint then
          [Effect.printLine "[DRY RUN]   - ESLint migration"] else []) ++
       (if loc.hasPrettier then
          [Effect.printLine "[DRY RUN]   - Prettier migration"] else []))
  else
    Effect.printLine "Migrating" ::
      (if !env.biomeExists && !env.createOk then
        [Effect.createFile (loc.dir ++ ["biome.json"]) minimalBiomeConfig,
         Effect.printLine "Error creating biome.json"]
      else
        (if env.biomeExists then []
         else [Effect.createFile (loc.dir ++ ["biome.json"]) minimalBiomeConfig]) ++
        (if loc.hasEslint then
          [Effect.runMigration loc.dir migrateEslintArgs,
           Effect.printLine (if env.eslintMigrateOk then "  ✓ ESLint migrated"
             else "Error migrating ESLint config")]
         else []) ++
        (if loc.hasPrettier then
          [Effect.runMigration loc.dir migratePrettierArgs,
           Effect.printLine (if env.prettierMigrateOk then "  ✓ Prettier migrated"
             else "Error migrating Prettier config")]
         else []) ++
        (if ((loc.hasEslint && !env.eslintMigrateOk) ||
             (loc.hasPrettier && !env.prettierMigrateOk)) &&
            !env.biomeExists && !loc.hasEslint && !loc.hasPrettier then
          [Effect.removeFile (loc.dir ++ ["biome.json"])]
        else
          Effect.patchFile (loc.dir ++ ["biome.json"]) ::
            ((if env.patchOk then []
              else [Effect.printLine "Error patching biome.json"]) ++
             [Effect.printLine "Created"])))

/-- The migration loop of `main` over all discovered locations, with each
location's environment. -/
def mainLoop (dryRun : Bool)
    (entries : List (configLocation × DirEnv)) : List Effect :=
  (entries.map (fun en => processDir dryRun en.1 en.2)).flatten

/-- In dry-run mode one directory produces report lines only. -/
theorem processDir_dry_run_report (loc : configLocation) (env : DirEnv) :
    (processDir true loc env).all isReport = true := by
  unfold processDir
  cases hE : loc.hasEslint <;> cases hP : loc.hasPrettier <;>
    simp [hE, hP, isReport]

/-- C6: in dry-run mode the whole loop performs report lines only — no file
is created, removed or patched and no subprocess is launched, whatever the
scan found and however the environment would have behaved. -/
theorem C6_dry_run_reports_only (entries : List (configLocation × DirEnv)) :
    (mainLoop true entries).all isReport = true := by
  induction entries with
  | nil => rfl
  | cons en tl ih =>
      rw [mainLoop, List.map_cons, List.flatten_cons, List.all_append]
      rw [mainLoop] at ih
      rw [processDir_dry_run_report, ih]
      rfl

/-- `main`'s control flow after flag parsing (src/main.go lines 62-158):
missing `-input`, a path-resolution failure and a scan error each exit with
code 1; otherwise the loop runs (or the no-configs message prints) and the
process finishes with code 0.  Returns the exit code and the effect trace. -/
def mainRun (inputDir : String) (absOk dryRun : Bool)
    (scan : Except Unit (List (configLocation × DirEnv))) :
    Nat × List Effect :=
  if inputDir = "" then
    (1, [Effect.printLine "Usage: biome_configurator -input <directory> [-dry-run]"])
  else if !absOk then
    (1, [Effect.printLine "Error resolving input directory"])
  else
    match scan with
    | .error _ => (1, [Effect.printLine "Error scanning directory"])
    | .ok [] => (0, [Effect.printLine "No ESLint or Prettier config files found"])
    | .ok entries =>
        (0, Effect.printLine "Found configs" ::
            (mainLoop dryRun entries ++ [Effect.printLine "Done!"]))

/-- C9: the exit code is 0 exactly when `-input` was given, the path
resolved and the scan succeeded (however many locations it found and however
the per-directory environments behave), and it is always 0 or 1. -/
theorem C9_exit_codes (inputDir : String) (absOk dryRun : Bool)
    (scan : Except Unit (List (configLocation × DirEnv))) :
    ((mainRun inputDir absOk dryRun scan).1 = 0 ↔
      (inputDir ≠ "" ∧ absOk = true ∧ ∃ entries, scan = .ok entries)) ∧
    ((mainRun inputDir absOk dryRun scan).1 = 0 ∨
     (mainRun inputDir absOk dryRun scan).1 = 1) := by
  unfold mainRun
  by_cases hin : inputDir = ""
  · simp [hin]
  · cases absOk with
    | false => simp [hin]
    | true =>
        cases scan with
        | error e => simp [hin]
        | ok entries =>
            cases entries with
            | nil => simp [hin]
            | cons a tl => simp [hin]

theorem setHasEslint_flagged (locs : ScanResult) (d : List String)
    (h : ∀ en ∈ locs, (en.2.hasEslint || en.2.hasPrettier) = true) :
    ∀ en ∈ setHasEslint locs d, (en.2.hasEslint || en.2.hasPrettier) = true := by
  induction locs with
  | nil =>
      intro en hen
      simp only [setHasEslint, List.mem_singleton] at hen
      subst hen
      rfl
  | cons hd rest ih =>
      obtain ⟨d', loc⟩ := hd
      intro en hen
      by_cases hd' : d' = d
      · simp only [setHasEslint, hd', ite_true, List.mem_cons] at hen
        rcases hen with hen | hen
        · subst hen; rfl
        · exact h en (List.mem_cons_of_mem _ hen)
      · simp only [setHasEslint, hd', ite_false, List.mem_cons] at hen
        rcases hen with hen | hen
        · subst hen; exact h _ (List.mem_cons_self _ _)
        · exact ih (fun en' hen' => h en' (List.mem_cons_of_mem _ hen')) en hen

theorem setHasPrettier_flagged (locs : ScanResult) (d : List String)
    (h : ∀ en ∈ locs, (en.2.hasEslint || en.2.hasPrettier) = true) :
    ∀ en ∈ setHasPrettier locs d, (en.2.hasEslint || en.2.hasPrettier) = true := by
  induction locs with
  | nil =>
      intro en hen
      simp only [setHasPrettier, List.mem_singleton] at hen
      subst hen
      rfl
  | cons hd rest ih =>
      obtain ⟨d', loc⟩ := hd
      intro en hen
      by_cases hd' : d' = d
      · simp only [setHasPrettier, hd', ite_true, List.mem_cons] at hen
        rcases hen with hen | hen
        · subst hen; simp
        · exact h en (List.mem_cons_of_mem _ hen)
      · simp only [setHasPrettier, hd', ite_false, List.mem_cons] at hen
        rcases hen with hen | hen
        · subst hen; exact h _ (List.mem_cons_self _ _)
        · exact ih (fun en' hen' => h en' (List.mem_cons_of_mem _ hen')) en hen

theorem classifyFile_flagged (locs : ScanResult) (d : List String) (f : String)
    (h : ∀ en ∈ locs, (en.2.hasEslint || en.2.hasPrettier) = true) :
    ∀ en ∈ classifyFile locs d f, (en.2.hasEslint || en.2.hasPrettier) = true := by
  unfold classifyFile
  by_cases hE : f ∈ eslintConfigFiles <;> by_cases hP : f ∈ prettierConfigFiles <;>
    simp only [hE, hP, ite_true, ite_false]
  · exact setHasPrettier_flagged _ _ (setHasEslint_flagged _ _ h)
  · exact setHasEslint_flagged _ _ h
  · exact setHasPrettier_flagged _ _ h
  · exact h

theorem foldl_classify_flagged (events : List (List String × String))
    (locs : ScanResult)
    (h : ∀ en ∈ locs, (en.2.hasEslint || en.2.hasPrettier) = true) :
    ∀ en ∈ events.foldl (fun l e => classifyFile l e.1 e.2) locs,
      (en.2.hasEslint || en.2.hasPrettier) = true := by
  induction events generalizing locs with
  | nil => exact h
  | cons e tl ih =>
      rw [List.foldl_cons]
      exact ih _ (classifyFile_flagged _ _ _ h)

/-- C10: every record of a scan result has at least one flag set (records are
only ever created with the matching flag immediately set); consequently, for
any flagged record the migration loop's defensive delete branch is never
taken, and whenever the loop reaches the migration phase (the output file
existed or its creation succeeded) the patch step runs. -/
theorem C10_no_flagless_record (t : FSTree) :
    (∀ en ∈ findConfigs t, (en.2.hasEslint || en.2.hasPrettier) = true) ∧
    (∀ loc env, (loc.hasEslint || loc.hasPrettier) = true →
      (∀ p, Effect.removeFile p ∉ processDir false loc env) ∧
      ((env.biomeExists || env.createOk) = true →
        Effect.patchFile (loc.dir ++ ["biome.json"]) ∈
          processDir false loc env)) := by
  constructor
  · intro en hen
    unfold findConfigs at hen
    rw [walkEntry_eq_foldl] at hen
    exact foldl_classify_flagged _ [] (by intro en' hen'; simp at hen') en hen
  · intro loc env h
    obtain ⟨envB, envC, envE, envP, envPa⟩ := env
    constructor
    · intro p
      unfold processDir
      cases hE : loc.hasEslint <;> cases hP : loc.hasPrettier <;>
        rw [hE, hP] at h <;> try exact absurd h (by decide)
      all_goals
        cases envB <;> cases envC <;> cases envE <;> cases envP <;> cases envPa <;>
          simp
    · intro hreach
      unfold processDir
      cases hE : loc.hasEslint <;> cases hP : loc.hasPrettier <;>
        rw [hE, hP] at h <;> try exact absurd h (by decide)
      all_goals
        simp only at hreach
      all_goals
        cases envB <;> cases envC <;> cases envE <;> cases envP <;> cases envPa <;>
          simp_all

/-- C10 witness: a linter-only record from a real scan is flagged; for a
flagged location whose `biome.json` is fresh and whose ESLint migration
fails, the delete branch still does not fire and the patch step still runs. -/
theorem C10_no_flagless_record_witness :
    (((["r"], (⟨["r"], true, false⟩ : configLocation)) :
        List String × configLocation).2.hasEslint ||
     ((["r"], (⟨["r"], true, false⟩ : configLocation)) :
        List String × configLocation).2.hasPrettier) = true ∧
    Effect.removeFile (["r"] ++ ["biome.json"]) ∉
      processDir false ⟨["r"], true, false⟩ ⟨false, true, false, true, true⟩ ∧
    Effect.patchFile (["r"] ++ ["biome.json"]) ∈
      processDir false ⟨["r"], true, false⟩ ⟨false, true, false, true, true⟩ := by
  have h := C10_no_flagless_record (.dir "r" (.cons (.file ".eslintrc.json") .nil))
  have h2 := h.2 ⟨["r"], true, false⟩ ⟨false, true, false, true, true⟩ (by decide)
  exact ⟨h.1 (["r"], ⟨["r"], true, false⟩) (by decide),
    h2.1 (["r"] ++ ["biome.json"]), h2.2 (by decide)⟩

/-- How descending into a directory can go: readable, permission-denied
(`os.IsPermission(err)`), or failing with any other traversal error. -/
inductive DirAccess where
  | readable : DirAccess
  | permDenied : DirAccess
  | otherError : DirAccess

mutual
/-- A filesystem entry in the error-aware tree model. -/
inductive FSTreeE where
  | file (name : String) : FSTreeE
  | dir (name : String) (access : DirAccess) (children : FSForestE) : FSTreeE
/-- Children of a directory in the error-aware model. -/
inductive FSForestE where
  | nil : FSForestE
  | cons (t : FSTreeE) (ts : FSForestE) : FSForestE
end

mutual
/-- The walk of `findConfigs` with the error callback of src/main.go lines
163-169: a denylisted directory is skipped before its entries are read; a
permission error while reading a directory's entries makes `filepath.Walk`
hand the error to the callback, which answers `filepath.SkipDir` (skip the
subtree, keep walking); any other error is returned and aborts the walk. -/
def walkEntryE (parent : List String) :
    FSTreeE → ScanResult → Except Unit ScanResult
  | .file name, locs => .ok (classifyFile locs parent name)
  | .dir name access children, locs =>
      if name ∈ prunedDirs then .ok locs
      else
        match access with
        | .permDenied => .ok locs
        | .otherError => .error ()
        | .readable => walkForestE (parent ++ [name]) children locs
/-- Walk a directory's entries in order, stopping at the first error. -/
def walkForestE (parent : List String) :
    FSForestE → ScanResult → Except Unit ScanResult
  | .nil, locs => .ok locs
  | .cons t ts, locs =>
      match walkEntryE parent t locs with
      | .error e => .error e
      | .ok locs' => walkForestE parent ts locs'
end

/-- `findConfigs` on the error-aware tree: the error returned by
`filepath.Walk` is the error of the whole call (src/main.go line 199). -/
def findConfigsE (root : FSTreeE) : Except Unit ScanResult :=
  walkEntryE [] root []

/-- Whether the computation succeeded. -/
def exceptOk : Except Unit ScanResult → Bool
  | .ok _ => true
  | .error _ => false

mutual
/-- Whether the walk will reach a directory that fails with a
non-permission error: such a directory under a pruned or permission-denied
ancestor is never reached. -/
def hasFatal : FSTreeE → Bool
  | .file _ => false
  | .dir name access children =>
      if name ∈ prunedDirs then false
      else
        match access with
        | .permDenied => false
        | .otherError => true
        | .readable => forestHasFatal children
/-- Whether any entry of a directory reaches a fatal error. -/
def forestHasFatal : FSForestE → Bool
  | .nil => false
  | .cons t ts => hasFatal t || forestHasFatal ts
end

mutual
theorem walkEntryE_ok_iff (parent : List String) (t : FSTreeE)
    (locs : ScanResult) :
    exceptOk (walkEntryE parent t locs) = !hasFatal t := by
  cases t with
  | file name => rfl
  | dir name access children =>
      by_cases h : name ∈ prunedDirs
      · simp [walkEntryE, hasFatal, h, exceptOk]
      · cases access with
        | permDenied => simp [walkEntryE, hasFatal, h, exceptOk]
        | otherError => simp [walkEntryE, hasFatal, h, exceptOk]
        | readable =>
            rw [walkEntryE, hasFatal]
            simp only [h, ite_false, if_false]
            exact walkForestE_ok_iff (parent ++ [name]) children locs
theorem walkForestE_ok_iff (parent : List String) (ts : FSForestE)
    (locs : ScanResult) :
    exceptOk (walkForestE parent ts locs) = !forestHasFatal ts := by
  cases ts with
  | nil => rfl
  | cons t ts' =>
      rw [walkForestE, forestHasFatal]
      cases hw : walkEntryE parent t locs with
      | error e =>
          have := walkEntryE_ok_iff parent t locs
          rw [hw] at this
          have hft : hasFatal t = true := by
            cases hval : hasFatal t
            · rw [hval] at this
              simp [exceptOk] at this
            · rfl
          simp [exceptOk, hft]
      | ok locs' =>
          have := walkEntryE_ok_iff parent t locs
          rw [hw] at this
          have hft : hasFatal t = false := by
            cases hval : hasFatal t
            · rfl
            · rw [hval] at this
              simp [exceptOk] at this
          rw [walkForestE_ok_iff parent ts' locs', hft]
          simp
end

/-- C7: a permission failure on a directory skips it (with its whole
subtree) and the walk of the rest continues with the result so far; a
non-permission failure on a reached directory aborts the walk; and a scan
over the whole tree returns an error exactly when some reachable directory
fails with a non-permission error. -/
theorem C7_walk_error_handling (t : FSTreeE) :
    (∀ parent name children locs, name ∉ prunedDirs →
      walkEntryE parent (.dir name .permDenied children) locs = .ok locs) ∧
    (∀ parent name children locs, name ∉ prunedDirs →
      walkEntryE parent (.dir name .otherError children) locs = .error ()) ∧
    (∀ parent locs, exceptOk (walkEntryE parent t locs) = !hasFatal t) := by
  refine ⟨?_, ?_, ?_⟩
  · intro parent name children locs h
    simp [walkEntryE, h]
  · intro parent name children locs h
    simp [walkEntryE, h]
  · intro parent locs
    exact walkEntryE_ok_iff parent t locs

/-- C7 witness: a permission-denied directory named `secret` (holding a
matching file) is skipped without error; the same directory failing with
another error aborts; a scan whose root holds such a failing child errors
while the permission-denied variant scans clean. -/
theorem C7_walk_error_handling_witness :
    walkEntryE [] (.dir "secret" .permDenied
      (.cons (.file ".eslintrc.json") .nil)) [] = .ok [] ∧
    walkEntryE [] (.dir "secret" .otherError
      (.cons (.file ".eslintrc.json") .nil)) [] = .error () ∧
    exceptOk (walkEntryE [] (.dir "root" .readable
      (.cons (.dir "secret" .otherError .nil) .nil)) []) = false := by
  have h := C7_walk_error_handling
    (.dir "root" .readable (.cons (.dir "secret" .otherError .nil) .nil))
  refine ⟨?_, ?_, ?_⟩
  · exact h.1 [] "secret" (.cons (.file ".eslintrc.json") .nil) [] (by decide)
  · exact h.2.1 [] "secret" (.cons (.file ".eslintrc.json") .nil) [] (by decide)
  · rw [h.2.2 [] []]
    rfl

/-- One run of `patchBiomeConfig` (src/main.go lines 220-257) against the
on-disk file, which is `none` when it cannot be read (`os.ReadFile` fails),
`some none` when it reads but is not valid JSON (`json.Unmarshal` fails), and
`some (some config)` when it parses to `config`.  `json.MarshalIndent` cannot
fail on values decoded from JSON, so serialization is total here.  Returned:
the call's result and the file state after the call — the single
`os.WriteFile` sits at the end of the success path, so the file is rewritten
only after read, parse and serialization all succeeded. -/
def runPatchBiomeConfig (file : Option (Option JObj)) :
    Except Unit JObj × Option (Option JObj) :=
  match file with
  | none => (.error (), none)
  | some none => (.error (), some none)
  | some (some config) =>
      (.ok (patchConfig config), some (some (patchConfig config)))

/-- C8: if reading or parsing fails, the patch call returns an error and the
file is exactly as before (no partial write); when the document parses, the
file afterwards holds exactly the patched document. -/
theorem C8_patch_no_partial_write (file : Option (Option JObj)) :
    ((file = none ∨ file = some none) →
      (runPatchBiomeConfig file).1 = .error () ∧
      (runPatchBiomeConfig file).2 = file) ∧
    (∀ config, file = some (some config) →
      (runPatchBiomeConfig file).2 = some (some (patchConfig config))) := by
  constructor
  · intro h
    rcases h with h | h <;> subst h <;> exact ⟨rfl, rfl⟩
  · intro config h
    subst h
    rfl

/-- C8 witness: an unparseable file errors and stays untouched; an empty
document gets the two patched sections written back. -/
theorem C8_patch_no_partial_write_witness :
    ((runPatchBiomeConfig (some none)).1 = .error () ∧
     (runPatchBiomeConfig (some none)).2 = some none) ∧
    (runPatchBiomeConfig (some (some []))).2
      = some (some (patchConfig [])) := by
  exact ⟨(C8_patch_no_partial_write (some none)).1 (Or.inr rfl),
    (C8_patch_no_partial_write (some (some []))).2 [] rfl⟩
